import Mathlib

/-!
Verification of the due-reminder scheduling core of the personal-assistant
repository (`src/scheduler.ts`): the 5-field cron matcher `cronMatchesTime`,
the due-decision `shouldReminderRun`, and the per-tick orchestration
`processDueReminders`.

Modelling conventions:
* JS strings are modelled as `String` / `List Char`; `String.split(sep)` for a
  one-character separator is `splitList`, which like JS keeps empty fragments.
* Instants (`Date` values, compared by epoch milliseconds) are `Int`.
* `parseInt` / `Number` are modelled on the integer literals the scheduler's
  cron grammar produces; a NaN result is `none`, and every comparison against
  `none` is false, matching JS comparisons against NaN.
* Network and database effects are oracles: a delivery attempt is a `Bool`
  (matching `sendTelegramMessage`, which catches its own errors and returns
  `false`), the agent call and the store update are `Except String _` values
  so that an uncaught throw can be distinguished from a handled failure.
-/

namespace Scheduler

/-- JS `string.split(sep)` for a single-character separator, on the char list:
splits at every occurrence, keeping empty fragments (`"a  b".split(' ')` is
`["a", "", "b"]`). -/
def splitList (sep : Char) : List Char → List (List Char)
  | [] => [[]]
  | c :: cs =>
    if c = sep then [] :: splitList sep cs
    else
      match splitList sep cs with
      | [] => [[c]]
      | p :: ps => (c :: p) :: ps

/-- Numeric value of a digit string, most significant digit first
(the value `parseInt` / `Number` give a plain decimal literal). -/
def valOfDigits (cs : List Char) : Nat :=
  cs.foldl (fun a c => a * 10 + (c.toNat - 48)) 0

/-- Whether a char list is a non-empty run of decimal digits. -/
def isDigits (cs : List Char) : Bool :=
  !cs.isEmpty && cs.all (·.isDigit)

/-- Leading-digit-run parse: JS `parseInt` after the optional sign, which
reads the longest digit prefix and is NaN (`none`) when there is none. -/
def parseLeadingDigits (cs : List Char) : Option Nat :=
  let ds := cs.takeWhile (·.isDigit)
  if ds.isEmpty then none else some (valOfDigits ds)

/-- JS `parseInt(s)`: optional sign followed by a digit prefix; `none` models
NaN. (Leading whitespace and radix prefixes never occur in cron fields and
are not modelled.) -/
def jsParseInt (cs : List Char) : Option Int :=
  match cs with
  | [] => none
  | c :: rest =>
    if c = '-' then (parseLeadingDigits rest).map (fun n => -(n : Int))
    else if c = '+' then (parseLeadingDigits rest).map (fun n => (n : Int))
    else (parseLeadingDigits cs).map (fun n => (n : Int))

/-- JS `Number(s)` restricted to the values cron fields can produce: the empty
string converts to 0, a signed run of digits to its value, and anything else
to NaN (`none`; non-integer numerics, which can never equal an integer
component value, are folded into NaN as well). -/
def jsNumber (cs : List Char) : Option Int :=
  match cs with
  | [] => some 0
  | c :: rest =>
    if c = '-' then (if isDigits rest then some (-(valOfDigits rest : Int)) else none)
    else if c = '+' then (if isDigits rest then some ((valOfDigits rest : Int)) else none)
    else if isDigits (c :: rest) then some ((valOfDigits (c :: rest) : Int)) else none

/-- JS `%` (truncated remainder, sign of the dividend) with `none` for the NaN
result of a zero divisor. -/
def jsMod (a b : Int) : Option Int :=
  if b = 0 then none else some (a.tmod b)

/-- Wall-clock view of a JS `Date`, as read through its component getters
(`getMonth` is 0-indexed, `getDay` is 0 = Sunday, exactly as in JS). -/
structure JsDate where
  getMinutes : Nat
  getHours : Nat
  getDate : Nat
  getMonth : Nat
  getDay : Nat
deriving Repr, DecidableEq

/-- The inner `matches` helper of `cronMatchesTime` (scheduler.ts:100-123):
`*`, then `*/n`, then a `-` range, then a `,` list, then exact `parseInt`
comparison, checked in that order. -/
def matchesPart (cronPart : List Char) (value : Nat) : Bool :=
  if cronPart = ['*'] then true
  else if cronPart.take 2 = ['*', '/'] then
    match jsParseInt (cronPart.drop 2) with
    | none => false
    | some interval =>
      match jsMod (value : Int) interval with
      | none => false
      | some r => r == 0
  else if cronPart.contains '-' then
    match splitList '-' cronPart with
    | p0 :: p1 :: _ =>
      match jsNumber p0, jsNumber p1 with
      | some a, some b => decide (a ≤ (value : Int) ∧ (value : Int) ≤ b)
      | _, _ => false
    | _ => false
  else if cronPart.contains ',' then
    ((splitList ',' cronPart).map jsNumber).contains (some (value : Int))
  else
    match jsParseInt cronPart with
    | some n => n == (value : Int)
    | none => false

/-- `cronMatchesTime` (scheduler.ts:91-132): split on single spaces, require
exactly 5 fields, and conjoin the per-field matches against minute, hour,
day-of-month, month (`getMonth() + 1`) and day-of-week. -/
def cronMatchesTime (cronExpression : String) (date : JsDate) : Bool :=
  match splitList ' ' cronExpression.data with
  | [minute, hour, dayOfMonth, month, dayOfWeek] =>
    matchesPart minute date.getMinutes &&
    matchesPart hour date.getHours &&
    matchesPart dayOfMonth date.getDate &&
    matchesPart month (date.getMonth + 1) &&
    matchesPart dayOfWeek date.getDay
  | _ => false

/-- Abstract syntax of the five supported single-field cron forms. -/
inductive CronField where
  | star : CronField
  | step : Nat → CronField
  | range : Nat → Nat → CronField
  | listF : List Nat → CronField
  | exact : Nat → CronField
deriving Repr, DecidableEq

/-- Spec-side field semantics, straight from the spec's per-field rules: `*`
matches anything, `*/n` matches when `value mod n = 0` on the raw value,
`a-b` matches when `a <= value <= b`, a list matches its members, a bare
integer matches itself. -/
def CronField.matchesSpec : CronField → Nat → Bool
  | .star, _ => true
  | .step n, v => v % n == 0
  | .range a b, v => decide (a ≤ v ∧ v ≤ b)
  | .listF ns, v => ns.contains v
  | .exact n, v => v == n

/-- A digit string denoting the number `n`. -/
def denotesNat (cs : List Char) (n : Nat) : Prop :=
  cs ≠ [] ∧ (∀ ch ∈ cs, ch.isDigit = true) ∧ valOfDigits cs = n

instance (cs : List Char) (n : Nat) : Decidable (denotesNat cs n) := by
  unfold denotesNat
  infer_instance

/-- Joining fragments with a separator character (the inverse of a split). -/
def intercalateChar (sep : Char) : List (List Char) → List Char
  | [] => []
  | [p] => p
  | p :: ps => p ++ sep :: intercalateChar sep ps

/-- Which field strings are well-formed renderings of which field form: `*`;
`*/n` with `n >= 1` in digits; `a-b` with both bounds in digits; a non-empty
comma-separated list of digit runs; a bare digit run. -/
def represents : CronField → List Char → Prop
  | .star, cs => cs = ['*']
  | .step n, cs => 1 ≤ n ∧ ∃ ds, denotesNat ds n ∧ cs = '*' :: '/' :: ds
  | .range a b, cs => ∃ da db, denotesNat da a ∧ denotesNat db b ∧ cs = da ++ '-' :: db
  | .listF ns, cs =>
      ns ≠ [] ∧ ∃ dss, List.Forall₂ denotesNat dss ns ∧ cs = intercalateChar ',' dss
  | .exact n, cs => denotesNat cs n

/-- A row of the `reminders` table, with instants in epoch milliseconds.
`cronExpression` is the nullable text column; `timezone` is NOT NULL in the
schema but the code still guards it with `|| 'America/Santiago'`. -/
structure Reminder where
  id : Nat
  conversationId : String
  message : String
  scheduledFor : Int
  timezone : String
  status : String
  processWithAgent : Bool
  cronExpression : Option String
  endDate : Option Int
  lastSent : Option Int
  updatedAt : Int
deriving Repr, DecidableEq

/-- JS truthiness of a nullable string: `null` and `""` are falsy. -/
def jsTruthyStr : Option String → Bool
  | none => false
  | some s => decide (s ≠ "")

/-- `d.setSeconds(0, 0)` on an epoch-millisecond instant: zero the seconds and
milliseconds within the minute (UTC offsets are whole minutes, so zeroing the
local-time seconds equals truncating the epoch value to the minute). -/
def truncMinute (t : Int) : Int := t - t % 60000

/-- `shouldReminderRun` (scheduler.ts:135-172). `toZonedTime` is the
`date-fns-tz` projection of an instant into a named zone's wall clock, passed
as an abstract parameter. Note that JS `!reminder.cronExpression` is true both
for `null` and for the empty string, so both take the one-time branch. -/
def shouldReminderRun (toZonedTime : Int → String → JsDate)
    (reminder : Reminder) (now : Int) : Bool :=
  match reminder.cronExpression with
  | none => decide (reminder.scheduledFor ≤ now)
  | some cexpr =>
    if cexpr = "" then decide (reminder.scheduledFor ≤ now)
    else
      if (match reminder.lastSent with
          | some ls => truncMinute ls == truncMinute now
          | none => false) then false
      else if now < reminder.scheduledFor then false
      else if (match reminder.endDate with
               | some e => decide (e < now)
               | none => false) then false
      else
        cronMatchesTime cexpr
          (toZonedTime now
            (if reminder.timezone = "" then "America/Santiago" else reminder.timezone))

/-- The SET clause of the post-delivery `db.update` (scheduler.ts:250-268):
`lastSent` and `updatedAt` always, `status = 'sent'` only for one-time
reminders (`status` is absent from the recurring branch's SET clause). -/
structure ReminderUpdate where
  lastSent : Int
  status : Option String
  updatedAt : Int
deriving Repr, DecidableEq

/-- Which update the scheduler issues for a reminder after full delivery,
branching on `if (reminder.cronExpression)` (JS truthiness). -/
def reminderUpdateFor (reminder : Reminder) (now : Int) : ReminderUpdate :=
  if jsTruthyStr reminder.cronExpression then
    { lastSent := now, status := none, updatedAt := now }
  else
    { lastSent := now, status := some "sent", updatedAt := now }

/-- Applying an UPDATE with WHERE clause `id = targetId` to a table of rows:
every row with the target id is overwritten (no condition on its current
status, mirroring `.where(eq(reminders.id, reminder.id))`), every other row
is untouched. -/
def applyUpdate (u : ReminderUpdate) (targetId : Nat) (store : List Reminder) :
    List Reminder :=
  store.map (fun row =>
    if row.id = targetId then
      { row with
          lastSent := some u.lastSent
          status := u.status.getD row.status
          updatedAt := u.updatedAt }
    else row)

/-- The whole store write after a successful delivery of `reminder`. -/
def updateAfterFire (reminder : Reminder) (now : Int) (store : List Reminder) :
    List Reminder :=
  applyUpdate (reminderUpdateFor reminder now) reminder.id store

/-- When `sep` occurs at the head of `cs`, the remainder after it. -/
def sepRest : List Char → List Char → Option (List Char)
  | [], cs => some cs
  | _ :: _, [] => none
  | p :: ps, c :: cs => if c = p then sepRest ps cs else none

/-- JS `string.split(sep)` for a non-empty multi-character separator: scan
left to right, cut at each non-overlapping occurrence. Fuel-driven so that it
reduces in the kernel; one unit of fuel per input character suffices. -/
def splitOnAux (sep : List Char) : Nat → List Char → List Char → List (List Char)
  | 0, acc, _ => [acc.reverse]
  | fuel + 1, acc, cs =>
    match cs with
    | [] => [acc.reverse]
    | c :: rest =>
      match sepRest sep cs with
      | some rem => acc.reverse :: splitOnAux sep fuel [] rem
      | none => splitOnAux sep fuel (c :: acc) rest

/-- JS `string.split(sep)` for a non-empty separator string. -/
def splitOnSub (sep cs : List Char) : List (List Char) :=
  splitOnAux sep cs.length [] cs

/-- JS `string.trim()`: drop whitespace from both ends. -/
def trimChars (cs : List Char) : List Char :=
  ((cs.dropWhile Char.isWhitespace).reverse.dropWhile Char.isWhitespace).reverse

/-- The multi-part delimiter of agent responses. -/
def splitToken : List Char := "---SPLIT---".data

/-- Splitting an agent response (scheduler.ts:210): split on the literal
`---SPLIT---`, trim every part, drop the empty ones. -/
def splitMessage (response : String) : List String :=
  (((splitOnSub splitToken response.data).map trimChars).filter
    (fun part => part.length > 0)).map String.mk

/-- Header prepended to the first part of an agent-processed reminder. -/
def scheduledUpdateHeader : String := "🔔 *Scheduled Update*\n\n"

/-- Header prepended to a literal (non-agent) reminder message. -/
def reminderHeader : String := "🔔 *Reminder*\n\n"

/-- The delivery loop over message parts (scheduler.ts:213-221): part `i` is
sent with the header exactly when `i = 0`; on the first failed send the loop
breaks with `allSent = false`. Returns the texts attempted, in order, and the
final `allSent` flag. `deliver i` is the success of the `i`-th send attempt. -/
def sendLoop (deliver : Nat → Bool) : Nat → List String → List String × Bool
  | _, [] => ([], true)
  | i, part :: rest =>
    let text := (if i = 0 then scheduledUpdateHeader else "") ++ part
    if deliver i then
      let out := sendLoop deliver (i + 1) rest
      (text :: out.1, out.2)
    else ([text], false)

/-- The texts the loop sends when every delivery succeeds: part `i` of the
split, with the header on part 0 only. -/
def decorateParts : Nat → List String → List String
  | _, [] => []
  | i, part :: rest =>
    ((if i = 0 then scheduledUpdateHeader else "") ++ part) :: decorateParts (i + 1) rest

/-- Effect oracle for processing one due reminder. `agentResult` is the
outcome of `processMessageWithAgent`: `.error` models an uncaught throw from
its database accesses, `.ok none` the handled-failure null response, `.ok
(some s)` a usable response. `deliver i` is the result of the `i`-th
`sendTelegramMessage` call (that function catches its own errors and returns
false). `updateResult` is the outcome of the post-delivery `db.update`. -/
structure ReminderEnv where
  agentResult : Except String (Option String)
  deliver : Nat → Bool
  updateResult : Except String Unit

/-- What one iteration of the due-reminder loop (scheduler.ts:193-272) does
to one reminder: the telegram texts attempted, in order, and the store update
issued (`none` when the reminder is skipped for this tick). `.error` is an
exception escaping the iteration: the loop body has no try/catch of its own. -/
structure ReminderOutcome where
  attempts : List String
  update : Option ReminderUpdate
deriving Repr, DecidableEq

/-- One iteration of the due-reminder loop. Agent path: a null response skips
the reminder; the response is split and each part sent until a failure, and
only full success reaches the update. Literal path: one headed message. An
`.error` from the agent call or the update propagates (caught only by the
tick-level catch). -/
def processReminder (env : ReminderEnv) (reminder : Reminder) (now : Int) :
    Except String ReminderOutcome :=
  if reminder.processWithAgent then
    match env.agentResult with
    | .error e => .error e
    | .ok none => .ok ⟨[], none⟩
    | .ok (some agentResponse) =>
      let messageParts := splitMessage agentResponse
      let sent := sendLoop env.deliver 0 messageParts
      if !sent.2 then .ok ⟨sent.1, none⟩
      else
        match env.updateResult with
        | .error e => .error e
        | .ok _ => .ok ⟨sent.1, some (reminderUpdateFor reminder now)⟩
  else
    let text := reminderHeader ++ reminder.message
    if env.deliver 0 then
      match env.updateResult with
      | .error e => .error e
      | .ok _ => .ok ⟨[text], some (reminderUpdateFor reminder now)⟩
    else .ok ⟨[text], none⟩

/-- The `for` loop of `processDueReminders` over the due subset, threading the
per-reminder index into the effect oracle. The whole loop sits inside the
tick's single try/catch, so the first uncaught exception ends the loop: later
due reminders are not processed (their outcomes do not appear). -/
def processLoop (envs : Nat → ReminderEnv) (now : Int) :
    Nat → List Reminder → List (Reminder × ReminderOutcome)
  | _, [] => []
  | i, r :: rest =>
    match processReminder (envs i) r now with
    | .error _ => []
    | .ok out => (r, out) :: processLoop envs now (i + 1) rest

/-- One tick (scheduler.ts:175-276). `fetchPending` is the
`status = 'pending'` query; its failure is caught by the tick-level catch and
the tick returns with nothing processed. The pending rows are filtered
through `shouldReminderRun` and the due subset is processed in order. The
tick itself never throws. -/
def processDueReminders (toZonedTime : Int → String → JsDate)
    (envs : Nat → ReminderEnv)
    (fetchPending : Except String (List Reminder)) (now : Int) :
    List (Reminder × ReminderOutcome) :=
  match fetchPending with
  | .error _ => []
  | .ok allReminders =>
    let dueReminders := allReminders.filter (fun r => shouldReminderRun toZonedTime r now)
    processLoop envs now 0 dueReminders


/-! Concrete fixtures used by the closed instances below. -/

/-- A fixed wall-clock projection (Monday 09:00, April 15) standing in for
`toZonedTime` in concrete instances. -/
def tzFix : Int → String → JsDate := fun _ _ => ⟨0, 9, 15, 3, 1⟩

/-- A one-time pending reminder due from instant 0. -/
def baseReminder : Reminder :=
  { id := 1
    conversationId := "chat"
    message := "drink water"
    scheduledFor := 0
    timezone := "America/Santiago"
    status := "pending"
    processWithAgent := false
    cronExpression := none
    endDate := none
    lastSent := none
    updatedAt := 0 }

/-- The same reminder with an empty-string (non-null but JS-falsy) cron
expression. -/
def emptyCronReminder : Reminder := { baseReminder with cronExpression := some "" }

/-- The base reminder routed through the agent. -/
def agentReminder : Reminder := { baseReminder with processWithAgent := true }

/-- An effect oracle where everything succeeds and the agent answers with a
bare delimiter (which splits to zero parts). -/
def envOk : ReminderEnv :=
  { agentResult := .ok (some "---SPLIT---")
    deliver := fun _ => true
    updateResult := .ok () }

/-- An oracle whose agent call throws (modelling an uncaught database error
inside `processMessageWithAgent`). -/
def throwingEnv : ReminderEnv :=
  { agentResult := .error "db connection lost"
    deliver := fun _ => true
    updateResult := .ok () }

/-- An oracle answering a two-part message whose second send fails. -/
def envFailSecond : ReminderEnv :=
  { agentResult := .ok (some "a---SPLIT---b")
    deliver := fun j => decide (j = 0)
    updateResult := .ok () }

/-- The base reminder as concurrently cancelled between fetch and update. -/
def cancelledReminder : Reminder := { baseReminder with status := "cancelled" }

/-- An effect oracle that never throws: the agent call returns (possibly a
null response) and the store update succeeds. Handled failures — a `false`
delivery or a null agent response — are still allowed. -/
def envNoThrow (env : ReminderEnv) : Prop :=
  (∃ o, env.agentResult = .ok o) ∧ env.updateResult = .ok ()

/-- Oracles where reminder 0's processing throws and every later one's
succeeds. -/
def envsThrowFirst : Nat → ReminderEnv := fun i => if i = 0 then throwingEnv else envOk

/-- A second one-time due reminder. -/
def plainReminder3 : Reminder := { baseReminder with id := 3 }

/-- A weekday-9am recurring reminder. -/
def recurringReminder : Reminder := { baseReminder with cronExpression := some "0 9 * * 1-5" }

/-! Concrete evaluations of the embedded cron matcher and splitter. -/

example : cronMatchesTime "*/15 * * * *" ⟨45, 10, 15, 4, 3⟩ = true := by decide
example : cronMatchesTime "*/15 * * * *" ⟨46, 10, 15, 4, 3⟩ = false := by decide
example : cronMatchesTime "0 9 * * 1-5" ⟨0, 9, 15, 4, 1⟩ = true := by decide
example : cronMatchesTime "0 9 * * 1-5" ⟨0, 9, 15, 4, 6⟩ = false := by decide
example : cronMatchesTime "0 9 * * 1,3,5" ⟨0, 9, 15, 4, 3⟩ = true := by decide
example : cronMatchesTime "0 9 * * *" ⟨1, 9, 15, 4, 3⟩ = false := by decide
example : cronMatchesTime "* * * *" ⟨0, 0, 1, 0, 0⟩ = false := by decide
example : cronMatchesTime "" ⟨0, 0, 1, 0, 0⟩ = false := by decide
example : splitMessage "a---SPLIT---b" = ["a", "b"] := by decide
example : splitMessage " ---SPLIT--- " = [] := by decide

/-! Helper lemmas about the delivery loop. -/

/-- When every send succeeds the loop attempts every part, in order, with the
header on the first, and reports full success. -/
theorem sendLoop_all_ok (deliver : Nat → Bool) (hall : ∀ j, deliver j = true) :
    ∀ (parts : List String) (i : Nat),
      sendLoop deliver i parts = (decorateParts i parts, true) := by
  intro parts
  induction parts with
  | nil => intro i; rfl
  | cons p rest ih =>
    intro i
    simp [sendLoop, decorateParts, hall i, ih (i + 1)]

/-- When the `k`-th send is the first failure, the loop attempts exactly the
parts up to and including part `k`, in order, and reports failure. -/
theorem sendLoop_first_fail (deliver : Nat → Bool) :
    ∀ (parts : List String) (i k : Nat), k < parts.length →
      deliver (i + k) = false → (∀ j, j < k → deliver (i + j) = true) →
      sendLoop deliver i parts = (decorateParts i (parts.take (k + 1)), false) := by
  intro parts
  induction parts with
  | nil => intro i k hk; simp at hk
  | cons p rest ih =>
    intro i k hk hfail hbefore
    cases k with
    | zero =>
      have h0 : deliver i = false := by simpa using hfail
      simp [sendLoop, decorateParts, h0]
    | succ k' =>
      have h0 : deliver i = true := by simpa using hbefore 0 (Nat.succ_pos k')
      have hfail' : deliver (i + 1 + k') = false := by
        have : i + 1 + k' = i + (k' + 1) := by omega
        rw [this]; exact hfail
      have hbefore' : ∀ j, j < k' → deliver (i + 1 + j) = true := by
        intro j hj
        have : i + 1 + j = i + (j + 1) := by omega
        rw [this]; exact hbefore (j + 1) (by omega)
      have hk' : k' < rest.length := by simpa using hk
      simp [sendLoop, decorateParts, h0, ih (i + 1) k' hk' hfail' hbefore']

/-! C3 -/

/-- Helper: with a falsy (`null` or empty) cron expression the due decision is
exactly the comparison `scheduledFor <= now`. -/
theorem shouldReminderRun_of_falsy (tz : Int → String → JsDate) (r : Reminder)
    (now : Int) (h : jsTruthyStr r.cronExpression = false) :
    shouldReminderRun tz r now = decide (r.scheduledFor ≤ now) := by
  unfold shouldReminderRun
  cases hc : r.cronExpression with
  | none => rfl
  | some s =>
    have hs : s = "" := by
      by_contra hne
      rw [hc] at h
      simp [jsTruthyStr, hne] at h
    simp [hs]

/-- Claim C3: for a one-time reminder (no cron expression) the due decision is
`scheduledFor <= now`; no other field — and not the timezone projection —
affects it, and it is monotone in `now`. -/
theorem onetime_due_rule (tz : Int → String → JsDate) (r : Reminder) (now : Int)
    (h : r.cronExpression = none) :
    shouldReminderRun tz r now = decide (r.scheduledFor ≤ now) ∧
    (∀ (tz' : Int → String → JsDate) (ls ed : Option Int) (tzn : String) (now' : Int),
      now ≤ now' → shouldReminderRun tz r now = true →
      shouldReminderRun tz' { r with lastSent := ls, endDate := ed, timezone := tzn } now' = true) := by
  have hfalsy : jsTruthyStr r.cronExpression = false := by rw [h]; rfl
  have h1 := shouldReminderRun_of_falsy tz r now hfalsy
  refine ⟨h1, ?_⟩
  intro tz' ls ed tzn now' hle hdue
  rw [h1] at hdue
  have h2 : shouldReminderRun tz' { r with lastSent := ls, endDate := ed, timezone := tzn } now'
      = decide (r.scheduledFor ≤ now') := by
    have : jsTruthyStr ({ r with lastSent := ls, endDate := ed, timezone := tzn } : Reminder).cronExpression = false := by
      simpa using hfalsy
    simpa using shouldReminderRun_of_falsy tz' _ now' this
  rw [h2]
  simp only [decide_eq_true_eq] at hdue ⊢
  omega

/-- Closed instance of the one-time due rule at a concrete reminder. -/
theorem onetime_due_rule_witness : shouldReminderRun tzFix baseReminder 5 = true :=
  ((onetime_due_rule tzFix baseReminder 5 rfl).1).trans (by decide)

/-! C7 -/

/-- Claim C7: `cronMatchesTime` is a total Boolean function, and whenever the
expression does not split (on single spaces) into exactly 5 fields it returns
`false` — a malformed cron expression makes a reminder silently never due
rather than raising. -/
theorem malformed_cron_never_matches (expr : String) (d : JsDate)
    (h : (splitList ' ' expr.data).length ≠ 5) :
    cronMatchesTime expr d = false := by
  unfold cronMatchesTime
  split
  · next _ _ _ _ _ heq => rw [heq] at h; simp at h
  · rfl

/-- Closed instance: a 4-field expression never matches. -/
theorem malformed_cron_never_matches_witness :
    (splitList ' ' ("* * * *" : String).data).length ≠ 5 ∧
    cronMatchesTime "* * * *" ⟨0, 9, 15, 3, 1⟩ = false :=
  ⟨by decide, malformed_cron_never_matches "* * * *" ⟨0, 9, 15, 3, 1⟩ (by decide)⟩

/-! C10 -/

/-- Claim C10: when the agent responds and the response splits (after trimming and
dropping empty parts) to zero parts, nothing at all is sent, yet the reminder
is recorded as delivered: `lastSent` is set to `now`, and a one-time
reminder's status becomes `sent`. -/
theorem empty_split_marks_sent (env : ReminderEnv) (r : Reminder) (now : Int)
    (resp : String)
    (hagent : r.processWithAgent = true)
    (hresp : env.agentResult = .ok (some resp))
    (hempty : splitMessage resp = [])
    (hupd : env.updateResult = .ok ()) :
    processReminder env r now = .ok ⟨[], some (reminderUpdateFor r now)⟩ ∧
    (reminderUpdateFor r now).lastSent = now ∧
    (jsTruthyStr r.cronExpression = false → (reminderUpdateFor r now).status = some "sent") := by
  refine ⟨?_, ?_, ?_⟩
  · simp [processReminder, hagent, hresp, hempty, hupd, sendLoop]
  · unfold reminderUpdateFor; split <;> rfl
  · intro hfalsy; simp [reminderUpdateFor, hfalsy]

/-- Closed instance: a bare-delimiter agent response on a one-time reminder. -/
theorem empty_split_marks_sent_witness :
    processReminder envOk agentReminder 7 = .ok ⟨[], some (reminderUpdateFor agentReminder 7)⟩ ∧
    (reminderUpdateFor agentReminder 7).lastSent = 7 ∧
    (jsTruthyStr agentReminder.cronExpression = false →
      (reminderUpdateFor agentReminder 7).status = some "sent") :=
  empty_split_marks_sent envOk agentReminder 7 "---SPLIT---" rfl rfl (by decide) rfl

/-! C5 -/

/-- Claim C5: delivery of a multi-part message attempts the parts in the order of
the split; the first failed part ends the attempt (no later part is sent: the
attempted list is exactly the split's first `k + 1` parts) and the tick issues
no store update, so `lastSent` and `status` are untouched and the whole
message is retried from the first part on a later tick. -/
theorem partial_delivery_atomic (env : ReminderEnv) (r : Reminder) (now : Int)
    (resp : String) (k : Nat)
    (hagent : r.processWithAgent = true)
    (hresp : env.agentResult = .ok (some resp))
    (hk : k < (splitMessage resp).length)
    (hfail : env.deliver k = false)
    (hbefore : ∀ j, j < k → env.deliver j = true) :
    processReminder env r now =
      .ok ⟨decorateParts 0 ((splitMessage resp).take (k + 1)), none⟩ := by
  have hsend := sendLoop_first_fail env.deliver (splitMessage resp) 0 k hk
    (by simpa using hfail) (by simpa using hbefore)
  simp [processReminder, hagent, hresp, hsend]

/-- Closed instance: part 2 of 2 fails; only the two attempted texts are sent
and no update is issued. -/
theorem partial_delivery_atomic_witness :
    processReminder envFailSecond agentReminder 7 =
      .ok ⟨decorateParts 0 ((splitMessage "a---SPLIT---b").take 2), none⟩ :=
  partial_delivery_atomic envFailSecond agentReminder 7 "a---SPLIT---b" 1 rfl rfl
    (by decide) (by decide)
    (by intro j hj; have hj0 : j = 0 := by omega
        subst hj0; rfl)

/-! C4 -/

/-- Claim C4 (amended): after full successful delivery the scheduler issues
`lastSent = now` (and `updatedAt = now`), branching on the JS truthiness of
`cronExpression`: a truthy (present and non-empty) cron expression leaves
`status` out of the SET clause, so a pending recurring reminder stays
`pending`; a falsy one (absent, or present but empty) also sets
`status = 'sent'`. -/
theorem full_delivery_updates_record (env : ReminderEnv) (r : Reminder) (now : Int)
    (hpend : r.status = "pending")
    (hdeliver : ∀ j, env.deliver j = true)
    (hupd : env.updateResult = .ok ())
    (hagent : r.processWithAgent = true → ∃ resp, env.agentResult = .ok (some resp)) :
    (∃ attempts, processReminder env r now = .ok ⟨attempts, some (reminderUpdateFor r now)⟩) ∧
    (jsTruthyStr r.cronExpression = true →
      updateAfterFire r now [r] = [{ r with lastSent := some now, updatedAt := now }] ∧
      (updateAfterFire r now [r]).map Reminder.status = ["pending"]) ∧
    (jsTruthyStr r.cronExpression = false →
      updateAfterFire r now [r] =
        [{ r with status := "sent", lastSent := some now, updatedAt := now }] ∧
      (updateAfterFire r now [r]).map Reminder.status = ["sent"]) := by
  refine ⟨?_, ?_, ?_⟩
  · cases hpa : r.processWithAgent with
    | true =>
      obtain ⟨resp, hresp⟩ := hagent hpa
      have hsend := sendLoop_all_ok env.deliver hdeliver (splitMessage resp) 0
      exact ⟨decorateParts 0 (splitMessage resp),
        by simp [processReminder, hpa, hresp, hsend, hupd]⟩
    | false =>
      exact ⟨[reminderHeader ++ r.message],
        by simp [processReminder, hpa, hdeliver 0, hupd]⟩
  · intro ht
    constructor
    · simp [updateAfterFire, applyUpdate, reminderUpdateFor, ht]
    · simp [updateAfterFire, applyUpdate, reminderUpdateFor, ht, hpend]
  · intro hf
    constructor
    · simp [updateAfterFire, applyUpdate, reminderUpdateFor, hf]
    · simp [updateAfterFire, applyUpdate, reminderUpdateFor, hf]

/-- Claim C4 counterexample: a reminder whose `cronExpression` is present but equal
to the empty string is treated as one-time after delivery: its status is set
to `sent` rather than remaining `pending`. -/
theorem full_delivery_empty_cron_cex :
    emptyCronReminder.cronExpression = some "" ∧
    emptyCronReminder.status = "pending" ∧
    processReminder envOk emptyCronReminder 9 =
      .ok ⟨["🔔 *Reminder*\n\ndrink water"],
           some { lastSent := 9, status := some "sent", updatedAt := 9 }⟩ ∧
    (updateAfterFire emptyCronReminder 9 [emptyCronReminder]).map Reminder.status = ["sent"] :=
  ⟨rfl, rfl, rfl, rfl⟩

/-- Closed instance of the post-delivery update for a one-time reminder. -/
theorem full_delivery_updates_record_witness :
    updateAfterFire baseReminder 9 [baseReminder] =
      [{ baseReminder with status := "sent", lastSent := some 9, updatedAt := 9 }] ∧
    (updateAfterFire baseReminder 9 [baseReminder]).map Reminder.status = ["sent"] :=
  (full_delivery_updates_record envOk baseReminder 9 rfl (fun _ => rfl) rfl
    (fun h => absurd h (by decide))).2.2 rfl

/-! C8 -/


/-- Claim C8 counterexample: the post-delivery write matches on `id` alone, so
applied against a store where the record is no longer pending it still takes
effect — a concurrently cancelled one-time reminder is overwritten with
`status = 'sent'` and a fresh `lastSent`. -/
theorem update_overwrites_cancelled_cex :
    cancelledReminder.status = "cancelled" ∧
    updateAfterFire baseReminder 1000 [cancelledReminder] =
      [{ baseReminder with status := "sent", lastSent := some 1000, updatedAt := 1000 }] :=
  ⟨rfl, rfl⟩

/-- Claim C8 (amended): the write issued after a successful delivery updates every
row whose `id` equals the fired reminder's id — with no condition on the
row's current status and no re-check of `pending` — and leaves every other
row unchanged. -/
theorem update_after_fire_by_id_only (r : Reminder) (now : Int)
    (store : List Reminder) (row : Reminder) (hmem : row ∈ store) :
    (row.id ≠ r.id → row ∈ updateAfterFire r now store) ∧
    (row.id = r.id → jsTruthyStr r.cronExpression = true →
      { row with lastSent := some now, updatedAt := now } ∈ updateAfterFire r now store) ∧
    (row.id = r.id → jsTruthyStr r.cronExpression = false →
      { row with status := "sent", lastSent := some now, updatedAt := now } ∈
        updateAfterFire r now store) := by
  simp only [updateAfterFire, applyUpdate]
  refine ⟨?_, ?_, ?_⟩
  · intro hne
    exact List.mem_map.mpr ⟨row, hmem, by simp [hne]⟩
  · intro heq ht
    exact List.mem_map.mpr ⟨row, hmem, by simp [heq, reminderUpdateFor, ht]⟩
  · intro heq hf
    exact List.mem_map.mpr ⟨row, hmem, by simp [heq, reminderUpdateFor, hf]⟩

/-- Closed instance: the cancelled row is rewritten to `sent` by the one-time
post-delivery write. -/
theorem update_after_fire_by_id_only_witness :
    { cancelledReminder with
        status := "sent", lastSent := some (1000 : Int), updatedAt := (1000 : Int) } ∈
      updateAfterFire baseReminder 1000 [cancelledReminder] :=
  (update_after_fire_by_id_only baseReminder 1000 [cancelledReminder] cancelledReminder
    (List.mem_singleton_self _)).2.2 rfl rfl

/-! C6 -/


/-- A non-throwing oracle makes one loop iteration total, whatever the
delivery outcomes. -/
theorem processReminder_ok (env : ReminderEnv) (r : Reminder) (now : Int)
    (h : envNoThrow env) : ∃ out, processReminder env r now = .ok out := by
  obtain ⟨⟨o, ho⟩, hupd⟩ := h
  cases hpa : r.processWithAgent with
  | false =>
    cases hd : env.deliver 0 <;> simp [processReminder, hpa, hd, hupd]
  | true =>
    cases o with
    | none => exact ⟨⟨[], none⟩, by simp [processReminder, hpa, ho]⟩
    | some resp =>
      rcases hs : sendLoop env.deliver 0 (splitMessage resp) with ⟨att, allSent⟩
      cases allSent <;> simp [processReminder, hpa, ho, hs, hupd]

/-- With non-throwing oracles the loop processes every due reminder. -/
theorem processLoop_all_ok (envs : Nat → ReminderEnv) (now : Int)
    (hok : ∀ i, envNoThrow (envs i)) :
    ∀ (rs : List Reminder) (i : Nat), (processLoop envs now i rs).map Prod.fst = rs := by
  intro rs
  induction rs with
  | nil => intro i; rfl
  | cons r rest ih =>
    intro i
    obtain ⟨out, hout⟩ := processReminder_ok (envs i) r now (hok i)
    simp [processLoop, hout, ih (i + 1)]

/-- The loop always processes an initial segment of the due list: an uncaught
throw ends it, and nothing after the throwing reminder is touched. -/
theorem processLoop_take (envs : Nat → ReminderEnv) (now : Int) :
    ∀ (rs : List Reminder) (i : Nat),
      ∃ k, (processLoop envs now i rs).map Prod.fst = rs.take k := by
  intro rs
  induction rs with
  | nil => intro i; exact ⟨0, rfl⟩
  | cons r rest ih =>
    intro i
    cases hp : processReminder (envs i) r now with
    | error e => exact ⟨0, by simp [processLoop, hp]⟩
    | ok out =>
      obtain ⟨k, hk⟩ := ih (i + 1)
      exact ⟨k + 1, by simp [processLoop, hp, hk]⟩

/-- Claim C6 (amended): failures are handled at two scopes. A top-level fetch
failure aborts the whole tick (nothing processed, no crash). Within the loop,
only failures signalled by return values (failed sends, null agent responses)
are per-reminder: when no oracle throws, every due reminder is processed. An
exception thrown while processing one reminder, however, is caught only at
tick scope: the loop stops and the processed reminders always form an initial
segment of the due list. -/
theorem tick_error_scope (tz : Int → String → JsDate) (envs : Nat → ReminderEnv)
    (now : Int) :
    (∀ msg, processDueReminders tz envs (.error msg) now = []) ∧
    (∀ rs, (∀ i, envNoThrow (envs i)) →
      (processDueReminders tz envs (.ok rs) now).map Prod.fst =
        rs.filter (fun r => shouldReminderRun tz r now)) ∧
    (∀ rs i, ∃ k, (processLoop envs now i rs).map Prod.fst = rs.take k) := by
  refine ⟨fun msg => rfl, ?_, processLoop_take envs now⟩
  intro rs hok
  simpa [processDueReminders] using
    processLoop_all_ok envs now hok (rs.filter (fun r => shouldReminderRun tz r now)) 0



/-- Claim C6 counterexample: with two due reminders, an exception thrown while
processing the first (an uncaught agent-path database error) ends the tick's
loop — the second due reminder is not processed at all in that tick, although
the very same oracle processes it fine on its own. -/
theorem tick_abort_on_throw_cex :
    processDueReminders tzFix envsThrowFirst (.ok [agentReminder, plainReminder3]) 0 = [] ∧
    processDueReminders tzFix (fun _ => envOk) (.ok [plainReminder3]) 0 =
      [(plainReminder3,
        ⟨["🔔 *Reminder*\n\ndrink water"],
         some { lastSent := 0, status := some "sent", updatedAt := 0 }⟩)] :=
  ⟨rfl, rfl⟩

/-- Closed instance of the no-throw clause of the tick error-scope theorem. -/
theorem tick_error_scope_witness :
    (processDueReminders tzFix (fun _ => envOk) (.ok [plainReminder3]) 0).map Prod.fst =
      [plainReminder3].filter (fun r => shouldReminderRun tzFix r 0) :=
  (tick_error_scope tzFix (fun _ => envOk) 0).2.1 [plainReminder3]
    (fun _ => ⟨⟨some "---SPLIT---", rfl⟩, rfl⟩)

/-! C1 -/

/-- Claim C1 (amended): for a reminder whose cron expression is present and
non-empty (JS-truthy), the reminder is due exactly when all four guards
hold — (a) no `lastSent` in the same minute as `now`, (b) `now` at or past
`scheduledFor`, (c) `now` at or before any `endDate`, (d) the cron
expression matches `now` projected into the reminder's timezone (default
`America/Santiago`). The definition checks them in the order a, b, c, d,
short-circuiting on the first failure. -/
theorem recurring_due_iff (tz : Int → String → JsDate) (r : Reminder) (now : Int)
    (c : String) (hc : r.cronExpression = some c) (hne : c ≠ "") :
    shouldReminderRun tz r now = true ↔
      ((∀ ls, r.lastSent = some ls → truncMinute ls ≠ truncMinute now) ∧
       r.scheduledFor ≤ now ∧
       (∀ e, r.endDate = some e → now ≤ e) ∧
       cronMatchesTime c
         (tz now (if r.timezone = "" then "America/Santiago" else r.timezone)) = true) := by
  unfold shouldReminderRun
  rw [hc]
  dsimp only
  rw [if_neg hne]
  cases hls : r.lastSent with
  | none =>
    cases hed : r.endDate with
    | none =>
      by_cases hstart : now < r.scheduledFor <;> simp [hstart]
      intro _
      omega
    | some e =>
      by_cases hstart : now < r.scheduledFor <;> by_cases hend : e < now <;>
        simp [hstart, hend]
      exact ⟨fun hcron => ⟨by omega, by omega, hcron⟩, fun h => h.2.2⟩
  | some ls =>
    by_cases hdedup : truncMinute ls = truncMinute now <;>
      cases hed : r.endDate <;>
      by_cases hstart : now < r.scheduledFor <;>
      simp [hdedup, hstart]
    · intro _
      omega
    · intro _ _
      omega

/-- Claim C1 counterexample: a present-but-empty cron expression takes the one-time
branch (JS `!reminder.cronExpression` is also true for `""`), so the reminder
is reported due although the cron-match guard (d) is false. -/
theorem recurring_due_empty_cron_cex :
    emptyCronReminder.cronExpression = some "" ∧
    emptyCronReminder.lastSent = none ∧
    emptyCronReminder.scheduledFor ≤ 0 ∧
    emptyCronReminder.endDate = none ∧
    cronMatchesTime "" (tzFix 0 emptyCronReminder.timezone) = false ∧
    shouldReminderRun tzFix emptyCronReminder 0 = true :=
  ⟨rfl, rfl, by decide, rfl, by decide, by decide⟩


/-- Closed instance: the guard conjunction decides the weekday-9am reminder
due at a matching instant. -/
theorem recurring_due_iff_witness :
    shouldReminderRun tzFix recurringReminder 60000 = true :=
  (recurring_due_iff tzFix recurringReminder 60000 "0 9 * * 1-5" rfl (by decide)).mpr
    ⟨fun _ h => Option.noConfusion h, by decide, fun _ h => Option.noConfusion h, by decide⟩

/-! C2: helper lemmas about splitting, parsing and digit strings. -/

/-- Splitting a separator-free fragment returns just that fragment. -/
theorem splitList_no_sep (sep : Char) :
    ∀ (cs : List Char), sep ∉ cs → splitList sep cs = [cs] := by
  intro cs
  induction cs with
  | nil => intro _; rfl
  | cons c rest ih =>
    intro h
    have hc : ¬ c = sep := fun hcs => h (hcs ▸ List.mem_cons_self c rest)
    have hrest : sep ∉ rest := fun hm => h (List.mem_cons_of_mem c hm)
    simp [splitList, hc, ih hrest]

/-- Splitting past a leading separator-free fragment. -/
theorem splitList_append (sep : Char) :
    ∀ (p rest : List Char), sep ∉ p →
      splitList sep (p ++ sep :: rest) = p :: splitList sep rest := by
  intro p
  induction p with
  | nil => intro rest _; simp [splitList]
  | cons c p' ih =>
    intro rest h
    have hc : ¬ c = sep := fun hcs => h (hcs ▸ List.mem_cons_self c p')
    have hp' : sep ∉ p' := fun hm => h (List.mem_cons_of_mem c hm)
    have hne : splitList sep (p' ++ sep :: rest) = p' :: splitList sep rest := ih rest hp'
    simp [splitList, hc, hne]

/-- Splitting inverts `intercalateChar` on separator-free fragments. -/
theorem splitList_intercalate (sep : Char) :
    ∀ (dss : List (List Char)), dss ≠ [] → (∀ p ∈ dss, sep ∉ p) →
      splitList sep (intercalateChar sep dss) = dss := by
  intro dss
  induction dss with
  | nil => intro h; exact absurd rfl h
  | cons p ps ih =>
    intro _ hfree
    cases ps with
    | nil => exact splitList_no_sep sep p (hfree p (List.mem_cons_self p []))
    | cons q qs =>
      have hp : sep ∉ p := hfree p (List.mem_cons_self p (q :: qs))
      have hrest : ∀ x ∈ q :: qs, sep ∉ x :=
        fun x hx => hfree x (List.mem_cons_of_mem p hx)
      have : intercalateChar sep (p :: q :: qs) = p ++ sep :: intercalateChar sep (q :: qs) := rfl
      rw [this, splitList_append sep p _ hp, ih (List.cons_ne_nil q qs) hrest]

/-- A digit character is none of the cron grammar's special characters. -/
theorem digit_notin_specials {ch : Char} (h : ch.isDigit = true) :
    ch ≠ '-' ∧ ch ≠ '+' ∧ ch ≠ '*' ∧ ch ≠ ',' ∧ ch ≠ '/' ∧ ch ≠ ' ' := by
  refine ⟨?_, ?_, ?_, ?_, ?_, ?_⟩ <;> rintro rfl <;> exact absurd h (by decide)

/-- A separator that is not a digit avoids every digit string. -/
theorem notin_digits (s : Char) {ds : List Char}
    (hall : ∀ ch ∈ ds, ch.isDigit = true) (hsep : s.isDigit = false) : s ∉ ds := by
  intro hmem
  rw [hall s hmem] at hsep
  exact Bool.noConfusion hsep

/-- The digit-prefix parser consumes a whole digit string. -/
theorem parseLeadingDigits_digits {ds : List Char} {n : Nat} (h : denotesNat ds n) :
    parseLeadingDigits ds = some n := by
  obtain ⟨hne, hall, hval⟩ := h
  unfold parseLeadingDigits
  rw [List.takeWhile_eq_self_iff.mpr hall]
  simp [hne, hval]

/-- `parseInt` of a digit string. -/
theorem jsParseInt_digits {ds : List Char} {n : Nat} (h : denotesNat ds n) :
    jsParseInt ds = some ((n : Int)) := by
  have hp := parseLeadingDigits_digits h
  obtain ⟨hne, hall, -⟩ := h
  cases ds with
  | nil => exact absurd rfl hne
  | cons d rest =>
    have hd := digit_notin_specials (hall d (List.mem_cons_self d rest))
    simp [jsParseInt, hd.1, hd.2.1, hp]

/-- `Number` of a digit string. -/
theorem jsNumber_digits {ds : List Char} {n : Nat} (h : denotesNat ds n) :
    jsNumber ds = some ((n : Int)) := by
  obtain ⟨hne, hall, hval⟩ := h
  cases ds with
  | nil => exact absurd rfl hne
  | cons d rest =>
    have hd := digit_notin_specials (hall d (List.mem_cons_self d rest))
    have hdig : isDigits (d :: rest) = true := by
      simp [isDigits]
      exact ⟨hall d (List.mem_cons_self d rest),
             fun x hx => hall x (List.mem_cons_of_mem d hx)⟩
    simp [jsNumber, hd.1, hd.2.1, hdig, hval]

/-- A string headed by a digit is neither `*` nor a step expression. -/
theorem digit_head_not_star (d : Char) (rest : List Char) (hd : d.isDigit = true) :
    (d :: rest) ≠ ['*'] ∧ (d :: rest).take 2 ≠ ['*', '/'] := by
  have h := (digit_notin_specials hd).2.2.1
  constructor
  · simp [h]
  · cases rest <;> simp [h]

/-- Every character of an intercalation is the separator or from a fragment. -/
theorem mem_intercalateChar {sep c : Char} :
    ∀ {dss : List (List Char)}, c ∈ intercalateChar sep dss → c = sep ∨ ∃ p ∈ dss, c ∈ p := by
  intro dss
  induction dss with
  | nil => intro h; simp [intercalateChar] at h
  | cons p ps ih =>
    cases ps with
    | nil => intro h; exact Or.inr ⟨p, by simp, h⟩
    | cons q qs =>
      intro h
      rw [show intercalateChar sep (p :: q :: qs) = p ++ sep :: intercalateChar sep (q :: qs)
        from rfl] at h
      rcases List.mem_append.mp h with h1 | h1
      · exact Or.inr ⟨p, by simp, h1⟩
      · rcases List.mem_cons.mp h1 with h2 | h2
        · exact Or.inl h2
        · rcases ih h2 with h3 | ⟨p', hp', hcp⟩
          · exact Or.inl h3
          · exact Or.inr ⟨p', by simp [hp'], hcp⟩

/-- Membership in the mapped `Number` results of a represented list matches
membership in the list of numbers. -/
theorem contains_jsNumber_map (v : Nat) :
    ∀ {dss : List (List Char)} {ns : List Nat}, List.Forall₂ denotesNat dss ns →
      ((dss.map jsNumber).contains (some ((v : Int)))) = ns.contains v := by
  intro dss ns h
  induction h with
  | nil => rfl
  | cons hdn htail ih =>
    simp [List.contains, jsNumber_digits hdn] at ih ⊢
    simp [ih]


theorem beq_cast_comm (n v : Nat) : (((n : Int)) == ((v : Int))) = (v == n) := by
  by_cases hv : v = n
  · subst hv; simp
  · have h1 : (((n : Int)) == ((v : Int))) = false := by
      simp [beq_eq_false_iff_ne]
      exact fun hh => hv (by exact_mod_cast hh.symm)
    have h2 : (v == n) = false := by simp [hv]
    rw [h1, h2]

theorem beq_cast_eq_contains (n v : Nat) : (((n : Int)) == ((v : Int))) = [n].contains v := by
  have h2 : [n].contains v = (v == n) := by
    by_cases hv : v = n
    · subst hv
      have h3 : [v].contains v = true := List.elem_eq_true_of_mem (List.mem_singleton_self v)
      rw [h3]
      simp
    · have hmem : v ∉ [n] := by simp [hv]
      rw [(by simpa using hmem : [n].contains v = false)]
      simp [hv]
  rw [h2]
  exact beq_cast_comm n v

theorem forall₂_digits {dss : List (List Char)} {ns : List Nat}
    (h : List.Forall₂ denotesNat dss ns) : ∀ p ∈ dss, ∀ ch ∈ p, ch.isDigit = true := by
  induction h with
  | nil => intro p hp; simp at hp
  | cons hdn htail ih =>
    intro p hp
    rcases List.mem_cons.mp hp with rfl | hp'
    · exact hdn.2.1
    · exact ih p hp'

set_option maxRecDepth 4096 in
theorem matchesPart_represents (e : CronField) (cs : List Char) (v : Nat)
    (h : represents e cs) : matchesPart cs v = e.matchesSpec v := by
  cases e with
  | star =>
    rw [h]
    rfl
  | step n =>
    obtain ⟨h1, ds, hds, rfl⟩ := h
    have hjp := jsParseInt_digits hds
    have hnz : ¬ ((n : Int)) = 0 := by
      intro h0
      have : n = 0 := by exact_mod_cast h0
      omega
    have htmod : ((v : Int)).tmod ((n : Int)) = ((v % n : Nat) : Int) := rfl
    simp [matchesPart, CronField.matchesSpec, hjp, jsMod, hnz, htmod]
    rw [Int.natCast_dvd_natCast]
    exact Nat.dvd_iff_mod_eq_zero
  | range a b =>
    obtain ⟨da, db, hda, hdb, rfl⟩ := h
    have hmda : '-' ∉ da := notin_digits '-' hda.2.1 (by decide)
    have hmdb : '-' ∉ db := notin_digits '-' hdb.2.1 (by decide)
    obtain ⟨d, da', rfl⟩ : ∃ d da', da = d :: da' := by
      cases da with
      | nil => exact absurd rfl hda.1
      | cons x xs => exact ⟨x, xs, rfl⟩
    have hd : d.isDigit = true := hda.2.1 d (List.mem_cons_self d da')
    have hdne := (digit_notin_specials hd).2.2.1
    have hcont : ((d :: da') ++ '-' :: db).contains '-' = true :=
      List.elem_eq_true_of_mem (by simp)
    have hsplit : splitList '-' ((d :: da') ++ '-' :: db) = [d :: da', db] := by
      rw [splitList_append '-' _ _ hmda, splitList_no_sep '-' db hmdb]
    rw [List.cons_append] at hcont hsplit ⊢
    simp [matchesPart, CronField.matchesSpec, hdne, hcont, hsplit,
      jsNumber_digits hda, jsNumber_digits hdb, Nat.cast_le]
  | listF ns =>
    obtain ⟨hne, dss, hall, rfl⟩ := h
    cases hall with
    | nil => exact absurd rfl hne
    | cons hdn htail =>
      rename_i ds n dss' ns'
      cases htail with
      | nil =>
        obtain ⟨d, ds', rfl⟩ : ∃ d ds', ds = d :: ds' := by
          cases ds with
          | nil => exact absurd rfl hdn.1
          | cons x xs => exact ⟨x, xs, rfl⟩
        have hd : d.isDigit = true := hdn.2.1 d (List.mem_cons_self d ds')
        have hdne := (digit_notin_specials hd).2.2.1
        have hstar := digit_head_not_star d ds' hd
        have hc1 : (d :: ds').contains '-' = false := by
          simpa using notin_digits '-' hdn.2.1 (by decide)
        have hc2 : (d :: ds').contains ',' = false := by
          simpa using notin_digits ',' hdn.2.1 (by decide)
        rw [show intercalateChar ',' [d :: ds'] = d :: ds' from rfl]
        unfold matchesPart
        rw [if_neg hstar.1, if_neg hstar.2, if_neg (by rw [hc1]; simp),
          if_neg (by rw [hc2]; simp), jsParseInt_digits hdn]
        exact beq_cast_eq_contains n v
      | cons hdn2 htail2 =>
        rename_i ds2 n2 dss3 ns3
        have hforall : List.Forall₂ denotesNat ((ds :: ds2 :: dss3)) ((n :: n2 :: ns3)) :=
          .cons hdn (.cons hdn2 htail2)
        obtain ⟨d, ds', rfl⟩ : ∃ d ds', ds = d :: ds' := by
          cases ds with
          | nil => exact absurd rfl hdn.1
          | cons x xs => exact ⟨x, xs, rfl⟩
        have hd : d.isDigit = true := hdn.2.1 d (List.mem_cons_self d ds')
        have hinter : intercalateChar ',' ((d :: ds') :: ds2 :: dss3)
            = d :: (ds' ++ ',' :: intercalateChar ',' (ds2 :: dss3)) := by
          rw [show intercalateChar ',' ((d :: ds') :: ds2 :: dss3)
              = (d :: ds') ++ ',' :: intercalateChar ',' (ds2 :: dss3) from rfl,
            List.cons_append]
        have hstar := digit_head_not_star d (ds' ++ ',' :: intercalateChar ',' (ds2 :: dss3)) hd
        have hccomma : (intercalateChar ',' ((d :: ds') :: ds2 :: dss3)).contains ',' = true := by
          apply List.elem_eq_true_of_mem
          rw [hinter]
          simp
        have hcminus : (intercalateChar ',' ((d :: ds') :: ds2 :: dss3)).contains '-' = false := by
          have hmminus : '-' ∉ intercalateChar ',' ((d :: ds') :: ds2 :: dss3) := by
            intro hmem
            rcases mem_intercalateChar hmem with h1 | ⟨p, hp, hcp⟩
            · exact absurd h1 (by decide)
            · exact absurd (forall₂_digits hforall p hp '-' hcp) (by decide)
          simpa using hmminus
        have hsplit : splitList ',' (intercalateChar ',' ((d :: ds') :: ds2 :: dss3))
            = (d :: ds') :: ds2 :: dss3 :=
          splitList_intercalate ',' _ (by simp)
            (fun p hp => notin_digits ',' (forall₂_digits hforall p hp) (by decide))
        have hmap := contains_jsNumber_map v hforall
        rw [hinter] at hccomma hcminus hsplit ⊢
        unfold matchesPart
        rw [if_neg hstar.1, if_neg hstar.2,
          if_neg (by rw [hcminus]; simp :
            ¬((d :: (ds' ++ ',' :: intercalateChar ',' (ds2 :: dss3))).contains '-' = true)),
          if_pos hccomma, hsplit]
        exact hmap
  | exact n =>
    obtain ⟨d, ds', rfl⟩ : ∃ d ds', cs = d :: ds' := by
      cases cs with
      | nil => exact absurd rfl h.1
      | cons x xs => exact ⟨x, xs, rfl⟩
    have hd : d.isDigit = true := h.2.1 d (List.mem_cons_self d ds')
    have hdne := (digit_notin_specials hd).2.2.1
    have hstar := digit_head_not_star d ds' hd
    have hc1 : (d :: ds').contains '-' = false := by
      simpa using notin_digits '-' h.2.1 (by decide)
    have hc2 : (d :: ds').contains ',' = false := by
      simpa using notin_digits ',' h.2.1 (by decide)
    unfold matchesPart
    rw [if_neg hstar.1, if_neg hstar.2, if_neg (by rw [hc1]; simp),
      if_neg (by rw [hc2]; simp), jsParseInt_digits h]
    exact beq_cast_comm n v

theorem represents_no_space (e : CronField) (cs : List Char) (h : represents e cs) :
    ' ' ∉ cs := by
  cases e with
  | star => rw [h]; decide
  | step n =>
    obtain ⟨-, ds, hds, rfl⟩ := h
    intro hmem
    rcases List.mem_cons.mp hmem with h1 | h1
    · exact absurd h1 (by decide)
    rcases List.mem_cons.mp h1 with h2 | h2
    · exact absurd h2 (by decide)
    · exact absurd (hds.2.1 ' ' h2) (by decide)
  | range a b =>
    obtain ⟨da, db, hda, hdb, rfl⟩ := h
    intro hmem
    rcases List.mem_append.mp hmem with h1 | h1
    · exact absurd (hda.2.1 ' ' h1) (by decide)
    · rcases List.mem_cons.mp h1 with h2 | h2
      · exact absurd h2 (by decide)
      · exact absurd (hdb.2.1 ' ' h2) (by decide)
  | listF ns =>
    obtain ⟨-, dss, hall, rfl⟩ := h
    intro hmem
    rcases mem_intercalateChar hmem with h1 | ⟨p, hp, hcp⟩
    · exact absurd h1 (by decide)
    · exact absurd (forall₂_digits hall p hp ' ' hcp) (by decide)
  | exact n =>
    intro hmem
    exact absurd (h.2.1 ' ' hmem) (by decide)

/-- Claim C2: for every well-formed 5-field cron expression (each field one
of the forms `*`, `*/n` with `n >= 1`, `a-b`, a non-empty comma list, or a
bare integer, rendered over decimal digit runs) and every set of wall-clock
components, the whole expression matches exactly when each of the five
fields matches its component per the spec's rules: `*` always, `*/n` when
`value mod n = 0` on the raw value, `a-b` when `a <= value <= b` inclusive,
a list when the value is listed, a bare integer on equality. -/
theorem cron_expression_matches_iff
    (e1 e2 e3 e4 e5 : CronField) (f1 f2 f3 f4 f5 : List Char)
    (h1 : represents e1 f1) (h2 : represents e2 f2) (h3 : represents e3 f3)
    (h4 : represents e4 f4) (h5 : represents e5 f5) (d : JsDate) :
    cronMatchesTime (String.mk (intercalateChar ' ' [f1, f2, f3, f4, f5])) d =
      (e1.matchesSpec d.getMinutes && e2.matchesSpec d.getHours &&
       e3.matchesSpec d.getDate && e4.matchesSpec (d.getMonth + 1) &&
       e5.matchesSpec d.getDay) := by
  have hfree : ∀ p ∈ [f1, f2, f3, f4, f5], ' ' ∉ p := by
    intro p hp
    simp at hp
    rcases hp with rfl | rfl | rfl | rfl | rfl
    · exact represents_no_space e1 p h1
    · exact represents_no_space e2 p h2
    · exact represents_no_space e3 p h3
    · exact represents_no_space e4 p h4
    · exact represents_no_space e5 p h5
  have hsplit := splitList_intercalate ' ' [f1, f2, f3, f4, f5] (by simp) hfree
  unfold cronMatchesTime
  rw [show (String.mk (intercalateChar ' ' [f1, f2, f3, f4, f5])).data
      = intercalateChar ' ' [f1, f2, f3, f4, f5] from rfl, hsplit]
  dsimp only
  rw [matchesPart_represents e1 f1 d.getMinutes h1,
    matchesPart_represents e2 f2 d.getHours h2,
    matchesPart_represents e3 f3 d.getDate h3,
    matchesPart_represents e4 f4 (d.getMonth + 1) h4,
    matchesPart_represents e5 f5 d.getDay h5]

/-- Closed instance: `*/15 9-17 1,15 * 3` matches minute 45, hour 10, day 15,
any month, weekday 3. -/
theorem cron_expression_matches_iff_witness :
    cronMatchesTime (String.mk (intercalateChar ' '
      ["*/15".data, "9-17".data, "1,15".data, "*".data, "3".data])) (JsDate.mk 45 10 15 3 3) = true :=
  (cron_expression_matches_iff (.step 15) (.range 9 17) (.listF [1, 15]) .star (.exact 3)
    "*/15".data "9-17".data "1,15".data "*".data "3".data
    (by refine ⟨by decide, "15".data, by decide, by decide⟩)
    ⟨"9".data, "17".data, by decide, by decide, by decide⟩
    ⟨by decide, ["1".data, "15".data], .cons (by decide) (.cons (by decide) .nil), by decide⟩
    (by show ("*".data : List Char) = ['*']; decide)
    (by show denotesNat "3".data 3; decide)
    (JsDate.mk 45 10 15 3 3)).trans (by decide)

end Scheduler
